import Mathlib

/-!
Verification development for the `create-laravel-filament` CLI installer.

The JavaScript source is embedded shallowly: file contents and command
output are Lean `String`s manipulated through explicit `List Char`
functions mirroring the JavaScript string operations (`split`, `trim`,
`includes`, `slice`, regex searches specialised to the literal patterns
appearing in the source).  Machine integers do not occur; all counts are
`Nat`.  Fallible operations return `Option`/`Except` values.
-/

/-! ## JavaScript string primitives -/

/-- JavaScript whitespace test used by `String.prototype.trim` and the
`\s` regex class (restricted to the ASCII whitespace characters that can
actually occur in the files the tool manipulates). -/
def jsIsSpace (c : Char) : Bool :=
  c == ' ' || c == '\t' || c == '\n' || c == '\r' || c == '\x0b' || c == '\x0c'

/-- Strip leading JavaScript whitespace (left half of `trim`). -/
def trimLeft (l : List Char) : List Char := l.dropWhile jsIsSpace

/-- Strip trailing JavaScript whitespace (`String.prototype.trimEnd`). -/
def trimRight (l : List Char) : List Char := (l.reverse.dropWhile jsIsSpace).reverse

/-- `String.prototype.trim`. -/
def jsTrim (l : List Char) : List Char := trimLeft (trimRight l)

/-- `String.prototype.split` with a single-character separator.
JavaScript yields `[""]` on the empty string and keeps empty fields. -/
def jsSplit (c : Char) : List Char → List (List Char)
  | [] => [[]]
  | x :: xs =>
    if x = c then [] :: jsSplit c xs
    else
      match jsSplit c xs with
      | [] => [[x]]
      | l :: ls => (x :: l) :: ls

/-- `Array.prototype.join` with a single-character separator. -/
def joinSep (c : Char) : List (List Char) → List Char
  | [] => []
  | [l] => l
  | l :: ls => l ++ c :: joinSep c ls

/-- `String.prototype.includes`: substring containment scan. -/
def jsIncludes (p : List Char) : List Char → Bool
  | [] => p.isEmpty
  | c :: t => p.isPrefixOf (c :: t) || jsIncludes p t

/-- Property lookup on a plain JavaScript object modelled as an
association list (`hasOwnProperty` + indexing). -/
def lookupUpd : List (List Char × List Char) → List Char → Option (List Char)
  | [], _ => none
  | (k, v) :: rest, key => if k = key then some v else lookupUpd rest key

/-- JavaScript `x || defaultString` over an optional string
(`undefined` and `""` are both falsy). -/
def strFalsy : Option String → Bool
  | none => true
  | some s => s == ""

/-- `input.x = input.x || d` as used for the non-interactive defaults. -/
def jsOrDefault (o : Option String) (d : String) : Option String :=
  if strFalsy o then some d else o

/-! ## Output truncation (`truncate`, part_000 lines 28–31) -/

/-- The marker appended by `truncate`.  The source template literal is
written with a doubled backslash, so the marker begins with a literal
backslash followed by `n`, not a newline. -/
def truncationMarker (k : Nat) : String :=
  "\\n... [truncated " ++ toString k ++ " chars]"

/-- `truncate(str, max = 8192)` from part_000 lines 28–31: empty input
yields the empty string, oversized input is sliced to `max` characters
and suffixed with the marker, anything else is returned unchanged. -/
def truncate (s : String) (max : Nat := 8192) : String :=
  if s = "" then ""
  else if s.length > max then String.mk (s.data.take max) ++ truncationMarker (s.length - max)
  else s

/-! ## CommandRunner (`run`, part_000 lines 270–290) -/

/-- The error object `execa` rejects with: message, captured streams
(possibly absent on spawn errors) and the exit code. -/
structure ExecaError where
  message : String
  stdout : Option String
  stderr : Option String
  exitCode : Option Int
deriving DecidableEq, Repr

/-- Outcome of the awaited `execa` call: either captured
`(stdout, stderr)` on exit code 0, or a rejection error. -/
abbrev ExecaOutcome := Except ExecaError (String × String)

/-- Structured result returned by `run`. -/
structure RunResult where
  status : String
  durationMs : Nat
  stdout : String
  stderr : String
  error : Option ExecaError
deriving DecidableEq, Repr

/-- JavaScript `error.stderr || error.message` (first operand falsy when
absent or empty). -/
def jsOrStr (a : Option String) (b : String) : String :=
  match a with
  | some s => if s = "" then b else s
  | none => b

/-- `run(cmd, opts)` from part_000 lines 270–290, with the external
process execution abstracted as an `ExecaOutcome` and the measured wall
clock duration as a parameter.  All failure is returned as data. -/
def run (outcome : ExecaOutcome) (durationMs : Nat) : RunResult :=
  match outcome with
  | .ok (out, err) =>
    { status := "success", durationMs := durationMs
      stdout := truncate out, stderr := truncate err, error := none }
  | .error e =>
    { status := "error", durationMs := durationMs
      stdout := truncate (e.stdout.getD ""), stderr := truncate (jsOrStr e.stderr e.message)
      error := some e }

/-! ## Color resolution (`colorsEnabled` / `isTTY`, part_000 lines 15–26) -/

/-- The flags consulted by `colorsEnabled`: `json` is a plain boolean,
`noColor` and `color` are tri-state (`undefined | true | false`). -/
structure ColorCtx where
  json : Bool
  noColor : Option Bool
  color : Option Bool
deriving DecidableEq, Repr

/-- `colorsEnabled(ctx)` from part_000 lines 19–26; `tty` is the ambient
`isTTY()` value (`process.stdout.isTTY && process.stdin.isTTY`). -/
def colorsEnabled (ctx : ColorCtx) (tty : Bool) : Bool :=
  if ctx.json then false
  else if ctx.noColor = some true then false
  else if ctx.color = some false then false
  else if !tty then false
  else if ctx.color = some true then true
  else true

/-- Modelled from the spec: the claimed enabling condition — structured
output off, disable flag off, and a TTY on both streams unless the
explicit force-enable flag overrides the terminal check. -/
def colorsEnabledClaim (ctx : ColorCtx) (tty : Bool) : Bool :=
  !ctx.json && !(ctx.noColor == some true) && (tty || ctx.color == some true)

/-! ## Env file merge (`updateEnvValues`, part_000 lines 81–106) -/

/-- The per-line key test of `updateEnvValues`: comment lines (leading
`#` after trimming) and lines without `=` are opaque; otherwise the key
is the trimmed text before the first `=`. -/
def envKeyOf (line : List Char) : Option (List Char) :=
  let t := jsTrim line
  if t.head? = some '#' then none
  else if !(t.contains '=') then none
  else some (t.takeWhile (fun c => c ≠ '='))

/-- One pass of the `lines.map` body of `updateEnvValues`: a line whose
key is an update key is rewritten to `key=value`, all others pass
through verbatim. -/
def mergeLine (upd : List (List Char × List Char)) (line : List Char) : List Char :=
  match envKeyOf line with
  | none => line
  | some k =>
    match lookupUpd upd k with
    | some v => k ++ '=' :: v
    | none => line

/-- Whether some existing line carries the key (the `keysFound` set). -/
def foundIn (lines : List (List Char)) (k : List Char) : Bool :=
  lines.any (fun l => envKeyOf l == some k)

/-- The line-level body of `updateEnvValues`: rewrite matching lines in
place, then append `key=value` for every update key not found. -/
def mergeLines (upd : List (List Char × List Char)) (lines : List (List Char)) :
    List (List Char) :=
  lines.map (mergeLine upd) ++
    (upd.filter (fun p => !(foundIn lines p.1))).map (fun p => p.1 ++ '=' :: p.2)

/-- The pure content transformation of `updateEnvValues` (part_000 lines
81–106): split on newlines, merge, re-join.  Reading a missing `.env`
yields the empty content, so the missing-file case is `updateEnvContent
upd ""`. -/
def updateEnvContent (updates : List (String × String)) (content : String) : String :=
  String.mk (joinSep '\n'
    (mergeLines (updates.map (fun p => (p.1.data, p.2.data))) (jsSplit '\n' content.data)))

/-- A well-formed env key for the idempotence analysis: non-empty, not
starting with whitespace or `#`, and containing neither `=` nor a
newline. -/
def goodEnvKey (k : List Char) : Bool :=
  match k with
  | [] => false
  | h :: _ => !jsIsSpace h && h ≠ '#' && !(k.contains '=') && !(k.contains '\n')

/-- A well-formed env value: contains no newline. -/
def goodEnvVal (v : List Char) : Bool := !(v.contains '\n')

/-! ## Non-interactive validation (part_000 lines 523–539 and 596–644) -/

/-- The flag-supplied inputs destructured by `runCreate`; absent flags
are `none`, and empty strings are falsy exactly as in the source. -/
structure CliInput where
  projectName : Option String
  starterKit : Option String
  db : Option String
  dbHost : Option String
  dbPort : Option String
  dbName : Option String
  dbUser : Option String
  dbPassword : Option String
  filamentName : Option String
  filamentEmail : Option String
  filamentPassword : Option String
deriving DecidableEq, Repr

/-- `if (cond) missing.push(flag)` rendered as list concatenation. -/
def flagIf (b : Bool) (name : String) : List String :=
  if b then [name] else []

/-- `validateNonInteractive(input)` from part_000 lines 523–539: the
ordered list of missing required flags. -/
def validateNonInteractive (i : CliInput) : List String :=
  flagIf (strFalsy i.projectName) "--project-name" ++
  flagIf (strFalsy i.starterKit) "--starter-kit" ++
  flagIf (strFalsy i.db) "--db" ++
  (if i.db = some "mysql" ∨ i.db = some "postgresql" then
    flagIf (strFalsy i.dbHost) "--db-host" ++
    flagIf (strFalsy i.dbPort) "--db-port" ++
    flagIf (strFalsy i.dbName) "--db-name" ++
    flagIf (strFalsy i.dbUser) "--db-user" ++
    flagIf (strFalsy i.dbPassword) "--db-password"
  else []) ++
  flagIf (strFalsy i.filamentName) "--filament-name" ++
  flagIf (strFalsy i.filamentEmail) "--filament-email" ++
  flagIf (strFalsy i.filamentPassword) "--filament-password"

/-- The defaults filled in the non-interactive branch of `runCreate`
(part_000 lines 596–605): starter kit and database always, Filament
credentials only when the strict `--non-interactive` flag is absent. -/
def applyNonInteractiveDefaults (nonInteractive : Bool) (i : CliInput) : CliInput :=
  let j := { i with starterKit := jsOrDefault i.starterKit "react"
                    db := jsOrDefault i.db "sqlite" }
  if nonInteractive then j
  else { j with filamentName := jsOrDefault j.filamentName "Admin"
                filamentEmail := jsOrDefault j.filamentEmail "admin@admin.com"
                filamentPassword := jsOrDefault j.filamentPassword "password" }

/-- `Array.prototype.join(', ')` over the missing-flag names. -/
def joinStrs (sep : String) : List String → String
  | [] => ""
  | [x] => x
  | x :: xs => x ++ sep ++ joinStrs sep xs

/-- The single missing-fields message of part_000 line 613. -/
def missingMessage (missing : List String) : String :=
  "Faltan banderas requeridas en modo no interactivo: " ++ joinStrs ", " missing

/-- The validation stage of the non-interactive branch (part_000 lines
596–629): fill defaults, validate, and either exit 1 with the message or
continue with the resolved input. -/
def resolveNonInteractive (nonInteractive : Bool) (i0 : CliInput) :
    Except (Nat × String) CliInput :=
  let i := applyNonInteractiveDefaults nonInteractive i0
  let missing := validateNonInteractive i
  if missing = [] then .ok i else .error (1, missingMessage missing)

/-! ## phpunit.xml patcher (`ensurePhpunitAppLocaleEn`, part_000 lines 118–140)

The two inner regexes of the source are written with doubled
backslashes inside regex literals (`/colors\\s*=\\s*.../` and
`/<env\\s+name=.../`), so each `\\s` matches a literal backslash
followed by repetitions of the letter `s`, not whitespace.  The
embedding reproduces exactly that. -/

/-- Case-insensitive character comparison (`/i` regex flag). -/
def ciEq (a b : Char) : Bool := a.toLower == b.toLower

/-- Case-insensitive literal prefix match. -/
def ciPrefix : List Char → List Char → Bool
  | [], _ => true
  | _ :: _, [] => false
  | p :: ps, c :: cs => ciEq p c && ciPrefix ps cs

/-- Matcher for the doubled-backslash pattern fragment `\\s*` under
`/i`: one literal backslash then a run of `s`/`S`; returns the suffix
after the fragment, or `none` when no backslash is present. -/
def eatBackslashSRun : List Char → Option (List Char)
  | '\\' :: rest => some (rest.dropWhile (fun c => ciEq c 's'))
  | _ => none

/-- Match the pattern `colors\\s*=\\s*["\x27]?[^"\x27]*["\x27]?` (with
`\\s` a literal backslash, per the source's double escaping) at the head
of the text; returns the length of the matched text. -/
def matchColorsPatAt (l : List Char) : Option Nat :=
  if ciPrefix "colors".data l then
    match eatBackslashSRun (l.drop 6) with
    | none => none
    | some r1 =>
      match r1 with
      | '=' :: r2 =>
        match eatBackslashSRun r2 with
        | none => none
        | some r3 =>
          let q1 := if r3.head? = some '"' ∨ r3.head? = some '\x27' then 1 else 0
          let body := (r3.drop q1).takeWhile (fun c => c ≠ '"' ∧ c ≠ '\x27')
          let r4 := (r3.drop q1).drop body.length
          let q2 := if r4.head? = some '"' ∨ r4.head? = some '\x27' then 1 else 0
          some (l.length - ((r3.drop (q1 + body.length + q2)).length))
      | _ => none
  else none

/-- `String.prototype.replace` with a non-global regex: rewrite the
leftmost match found by `matchAt`, using `repl` on the matched text;
no-op when nothing matches. -/
def replaceFirstBy (matchAt : List Char → Option Nat) (repl : List Char → List Char) :
    List Char → List Char
  | [] => match matchAt [] with
          | some n => repl ([].take n)
          | none => []
  | c :: rest =>
    match matchAt (c :: rest) with
    | some n => repl ((c :: rest).take n) ++ (c :: rest).drop n
    | none => c :: replaceFirstBy matchAt repl rest

/-- The callback of the `<phpunit...>` replacement (part_000 lines
130–133): append ` colors="true"` when no `colors=` is present,
otherwise attempt the (dead, double-escaped) `colors\\s*=...` rewrite on
the matched tag text. -/
def phpunitTagCallback (matched attrs : List Char) : List Char :=
  if jsIncludes "colors=".data attrs then
    replaceFirstBy matchColorsPatAt (fun _ => "colors=\"true\"".data) matched
  else
    "<phpunit".data ++ attrs ++ " colors=\"true\">".data

/-- Match `/<phpunit([^>]*)>/i` at the head of the text: returns the
matched length and the captured attribute text. -/
def matchPhpunitTagAt (l : List Char) : Option (Nat × List Char) :=
  if ciPrefix "<phpunit".data l then
    let attrs := (l.drop 8).takeWhile (fun c => c ≠ '>')
    match (l.drop 8).drop attrs.length with
    | '>' :: _ => some (8 + attrs.length + 1, attrs)
    | _ => none
  else none

/-- Leftmost `<phpunit...>` rewrite (part_000 lines 130–133). -/
def replacePhpunitTag : List Char → List Char
  | [] => []
  | c :: rest =>
    match matchPhpunitTagAt (c :: rest) with
    | some (n, attrs) => phpunitTagCallback ((c :: rest).take n) attrs ++ (c :: rest).drop n
    | none => c :: replacePhpunitTag rest

/-- Match the double-escaped pattern
`<env\\s+name="APP_LOCALE"\\s+value="[^"]*"` (with `\\s` a literal
backslash) at the head of the text; returns the matched length. -/
def matchEnvAppLocaleAt (l : List Char) : Option Nat :=
  if ciPrefix "<env".data l then
    match l.drop 4 with
    | '\\' :: r0 =>
      let sRun := r0.takeWhile (fun c => ciEq c 's')
      if sRun.length = 0 then none
      else
        let r1 := r0.drop sRun.length
        if ciPrefix "name=\"APP_LOCALE\"".data r1 then
          match r1.drop 17 with
          | '\\' :: r2 =>
            let sRun2 := r2.takeWhile (fun c => ciEq c 's')
            if sRun2.length = 0 then none
            else
              let r3 := r2.drop sRun2.length
              if ciPrefix "value=\"".data r3 then
                let body := (r3.drop 7).takeWhile (fun c => c ≠ '"')
                match (r3.drop 7).drop body.length with
                | '"' :: r4 => some (l.length - r4.length)
                | _ => none
              else none
          | _ => none
        else none
    | _ => none
  else none

/-- The APP_LOCALE branch of part_000 lines 134–138: when the marker
`name="APP_LOCALE"` occurs, attempt the (dead) `<env\\s+...` rewrite —
whose replacement text also drops the leading `<` — otherwise inject a
fresh env element after the first `<php>`. -/
def ensurePhpunitEnvStep (l : List Char) : List Char :=
  if jsIncludes "name=\"APP_LOCALE\"".data l then
    replaceFirstBy matchEnvAppLocaleAt
      (fun _ => "env name=\"APP_LOCALE\" value=\"en\"".data) l
  else
    replaceFirstBy (fun t => if ciPrefix "<php>".data t then some 5 else none)
      (fun _ => "<php><env name=\"APP_LOCALE\" value=\"en\"/>".data) l

/-- The full content transformation of `ensurePhpunitAppLocaleEn`
(part_000 lines 129–139) applied to an existing candidate file. -/
def ensurePhpunitTransform (xml : String) : String :=
  String.mk (ensurePhpunitEnvStep (replacePhpunitTag xml.data))

/-- The candidate-file selection of part_000 lines 119–128: patch
`phpunit.xml` when present, else `phpunit.xml.dist`, else do nothing;
the result gives the content written to each candidate, if any. -/
def ensurePhpunitAppLocaleEn (phpunitXml phpunitXmlDist : Option String) :
    Option String × Option String :=
  match phpunitXml with
  | some c => (some (ensurePhpunitTransform c), none)
  | none =>
    match phpunitXmlDist with
    | some c => (none, some (ensurePhpunitTransform c))
    | none => (none, none)

/-! ## UserFactory 2FA patcher (`patchUserFactoryTwoFactorDefaults`,
part_000 lines 211–268) -/

/-- Match `/^[ \t]*return\s*\[/m` at a line start: greedy indent, the
literal `return`, then whitespace, then `[`; returns (match length,
indent length). -/
def matchReturnArrayAt (l : List Char) : Option (Nat × Nat) :=
  let indent := l.takeWhile (fun c => c == ' ' || c == '\t')
  let rest := l.drop indent.length
  if rest.take 6 = "return".data then
    let ws := (rest.drop 6).takeWhile jsIsSpace
    match (rest.drop 6).drop ws.length with
    | '[' :: _ => some (indent.length + 6 + ws.length + 1, indent.length)
    | _ => none
  else none

/-- Leftmost line-start match of `/^[ \t]*return\s*\[/m`: returns
(start index, match length, indent length).  `atStart` tracks whether
the current position follows a newline (or is position 0). -/
def findReturnStart : List Char → Nat → Bool → Option (Nat × Nat × Nat)
  | [], _, _ => none
  | c :: rest, i, atStart =>
    if atStart then
      match matchReturnArrayAt (c :: rest) with
      | some (ml, il) => some (i, ml, il)
      | none => findReturnStart rest (i + 1) (c == '\n')
    else findReturnStart rest (i + 1) (c == '\n')

/-- Match `/^[ \t]*\];/m` at a line start. -/
def matchArrayEndAt (l : List Char) : Bool :=
  (l.drop ((l.takeWhile (fun c => c == ' ' || c == '\t')).length)).take 2 = "];".data

/-- Leftmost line-start match of `/^[ \t]*\];/m`: returns its index. -/
def findArrayEnd : List Char → Nat → Bool → Option Nat
  | [], _, _ => none
  | c :: rest, i, atStart =>
    if atStart ∧ matchArrayEndAt (c :: rest) then some i
    else findArrayEnd rest (i + 1) (c == '\n')

/-- `arr.trimEnd().endsWith(',')`. -/
def endsWithComma (l : List Char) : Bool := (trimRight l).getLast? = some ','

/-- `arr.replace(/\s*$/, ',\n')`: the leftmost match of `\s*$` is the
maximal trailing-whitespace run, replaced by `,\n`. -/
def ensureTrailingComma (arr : List Char) : List Char :=
  if endsWithComma arr then arr else trimRight arr ++ [',', '\n']

/-- The three injected default lines (part_000 lines 254–258),
parameterised by the `return [` line's indent. -/
def twoFactorInjection (indent : List Char) : List Char :=
  let ii := indent ++ "    ".data
  ii ++ "\x27two_factor_secret\x27 => null,\n".data ++
  ii ++ "\x27two_factor_recovery_codes\x27 => null,\n".data ++
  ii ++ "\x27two_factor_confirmed_at\x27 => null,\n".data

/-- Structured outcome of the patcher: the `{patched, reason}` record
plus the content written, if any. -/
structure PatchOutcome where
  patched : Bool
  reason : Option String
  write : Option String
deriving DecidableEq, Repr

/-- `patchUserFactoryTwoFactorDefaults` (part_000 lines 211–268) with
the file read abstracted: `none` models the failed read.  All expected
conditions are returned as data; only the success branch writes. -/
def patchUserFactoryTwoFactorDefaults (content? : Option String) : PatchOutcome :=
  match content? with
  | none => ⟨false, some "factory_not_found", none⟩
  | some content =>
    let cs := content.data
    if jsIncludes "two_factor_secret".data cs ||
       jsIncludes "two_factor_recovery_codes".data cs ||
       jsIncludes "two_factor_confirmed_at".data cs then
      ⟨false, some "already_present", none⟩
    else
      match findReturnStart cs 0 true with
      | none => ⟨false, some "array_not_found", none⟩
      | some (startIdx, matchLen, indentLen) =>
        let afterStart := cs.drop startIdx
        match findArrayEnd afterStart 0 true with
        | none => ⟨false, some "array_end_not_found", none⟩
        | some endIdxRel =>
          let arrStart := startIdx + matchLen
          let arrEnd := startIdx + endIdxRel
          let arr := ensureTrailingComma ((cs.take arrEnd).drop arrStart)
          let injection := twoFactorInjection (cs.drop startIdx |>.take indentLen)
          let newContent := cs.take arrStart ++ arr ++ injection ++ cs.drop arrEnd
          if newContent = cs then ⟨false, some "replace_noop", none⟩
          else ⟨true, none, some (String.mk newContent)⟩

/-! ## Pipeline engine (Listr `{concurrent:false, exitOnError:true}`,
part_000 lines 654–992, and the failure catch block, lines 1081–1108) -/

/-- One record of the shared `events` array. -/
structure Event where
  name : String
  status : String
  durationMs : Option Nat
  stdout : Option String
  stderr : Option String
deriving DecidableEq, Repr

/-- A thrown JavaScript `Error`: a message, plus the optional `step`
property the catch block reads (`err.step || null`). -/
structure PError where
  message : String
  step : Option String
deriving DecidableEq, Repr

/-- `new Error(msg)`: no `step` property is ever attached. -/
def mkJsError (msg : String) : PError := ⟨msg, none⟩

/-- A Listr task: a title and an action over the shared events array.
The action returns the events array after its own appends together with
the fatal error it throws, if any. -/
structure PipeStep where
  title : String
  action : List Event → List Event × Option PError

/-- Terminal state of one pipeline run. -/
inductive RunOutcome where
  | completed (events : List Event)
  | failed (events : List Event) (e : PError)
deriving DecidableEq, Repr

/-- Sequential execution with abort on first thrown error, the
semantics of `new Listr(tasks, {concurrent:false, exitOnError:true})`
awaited by `tasks.run()` inside the try/catch of part_000 lines
994–1108. -/
def runPipeline : List PipeStep → List Event → RunOutcome
  | [], evs => .completed evs
  | s :: rest, evs =>
    match s.action evs with
    | (evs2, none) => runPipeline rest evs2
    | (evs2, some e) => .failed evs2 e

/-- The `error` object of the failure JSON document (part_000 line
1098): `{ message: err.message, step: err.step || null }`. -/
def renderedError (e : PError) : String × Option String := (e.message, e.step)

/-- Outcome of the whole `runCreate` non-interactive path: either the
pre-pipeline validation failure (exit 1, no events, no step run) or a
pipeline outcome. -/
inductive CreateOutcome where
  | validationError (exitCode : Nat) (message : String) (events : List Event)
  | ran (outcome : RunOutcome)
deriving DecidableEq, Repr

/-- The non-interactive `runCreate` skeleton: validation gates the
pipeline (part_000 lines 596–629 then 994–1108). -/
def runCreateModel (nonInteractive : Bool) (i0 : CliInput)
    (mkSteps : CliInput → List PipeStep) : CreateOutcome :=
  match resolveNonInteractive nonInteractive i0 with
  | .error (c, m) => .validationError c m []
  | .ok i => .ran (runPipeline (mkSteps i) [])

/-! ## Concrete fixtures for the scenario theorems -/

/-- Scenario C, step 1: succeeds and appends one success event. -/
def stepOne : PipeStep :=
  ⟨"Prechequeos", fun evs => (evs ++ [⟨"prechecks", "success", some 5, none, none⟩], none)⟩

/-- Scenario C, step 2: appends its partial event, then throws a plain
`new Error` exactly as the source tasks do. -/
def stepTwo : PipeStep :=
  ⟨"Scaffold del proyecto", fun evs =>
    (evs ++ [⟨"laravel_new", "error", some 7, none, some "boom"⟩],
     some (mkJsError "Fallo al crear el proyecto Laravel"))⟩

/-- Scenario C, step 3: would append an event if it ever ran. -/
def stepThree : PipeStep :=
  ⟨"Base de datos y entorno", fun evs =>
    (evs ++ [⟨"artisan_migrate", "success", some 9, none, none⟩], none)⟩

/-- Scenario D input: mysql selected, the five connection flags unset,
everything else supplied. -/
def mysqlScenarioInput : CliInput :=
  ⟨some "demo", some "react", some "mysql", none, none, none, none, none,
   some "Admin", some "admin@admin.com", some "password"⟩

/-- A phpunit.xml with a `colors` attribute and an existing APP_LOCALE
env element at value `es`. -/
def phpunitWithLocaleEs : String :=
  "<?xml version=\"1.0\"?>\n<phpunit colors=\"false\">\n<php><env name=\"APP_LOCALE\" value=\"es\"/></php>\n</phpunit>\n"

/-- A minimal UserFactory-like content with a `return [ ... ];` block
and no two-factor keys. -/
def demoFactory : String :=
  "    return [\n        \x27name\x27 => fake()->name(),\n    ];\n"

/-- Decidable form of "this line is not rewritten by the update map":
its key is absent or matches no update entry. -/
def notUpdated (upd : List (List Char × List Char)) (line : List Char) : Bool :=
  match envKeyOf line with
  | none => true
  | some k => (lookupUpd upd k).isNone

/-- Modelled from the spec: "for every required field left unset, the
tool reports that field\x27s flag name" — which flags are required and
unset for a given (post-default) input. -/
def requiredUnsetFlag (i : CliInput) (f : String) : Prop :=
  (((((strFalsy i.projectName = true ∧ f = "--project-name" ∨
        strFalsy i.starterKit = true ∧ f = "--starter-kit") ∨
        strFalsy i.db = true ∧ f = "--db") ∨
      (i.db = some "mysql" ∨ i.db = some "postgresql") ∧
        ((((strFalsy i.dbHost = true ∧ f = "--db-host" ∨
            strFalsy i.dbPort = true ∧ f = "--db-port") ∨
            strFalsy i.dbName = true ∧ f = "--db-name") ∨
          strFalsy i.dbUser = true ∧ f = "--db-user") ∨
          strFalsy i.dbPassword = true ∧ f = "--db-password")) ∨
    strFalsy i.filamentName = true ∧ f = "--filament-name") ∨
    strFalsy i.filamentEmail = true ∧ f = "--filament-email") ∨
    strFalsy i.filamentPassword = true ∧ f = "--filament-password"

/-! ## Helper lemmas on the string primitives -/

theorem jsSplit_ne_nil (c : Char) (l : List Char) : jsSplit c l ≠ [] := by
  induction l with
  | nil => simp [jsSplit]
  | cons x xs ih =>
    by_cases hx : x = c
    · simp [jsSplit, hx]
    · simp only [jsSplit, if_neg hx]
      cases h : jsSplit c xs with
      | nil => exact absurd h ih
      | cons a as => simp

theorem not_mem_of_mem_jsSplit (c : Char) :
    ∀ (l x : List Char), x ∈ jsSplit c l → c ∉ x := by
  intro l
  induction l with
  | nil =>
    intro x hx
    simp [jsSplit] at hx
    simp [hx]
  | cons y ys ih =>
    intro x hx
    by_cases hy : y = c
    · simp only [jsSplit, if_pos hy, List.mem_cons] at hx
      rcases hx with h | h
      · simp [h]
      · exact ih x h
    · simp only [jsSplit, if_neg hy] at hx
      cases h : jsSplit c ys with
      | nil => exact absurd h (jsSplit_ne_nil c ys)
      | cons a as =>
        rw [h] at hx
        rcases List.mem_cons.mp hx with h1 | h1
        · subst h1
          intro hc
          rcases List.mem_cons.mp hc with h2 | h2
          · exact hy h2.symm
          · exact ih a (h ▸ List.mem_cons_self a as) h2
        · exact ih x (h ▸ List.mem_cons_of_mem a h1)

theorem jsSplit_of_not_mem (c : Char) (l : List Char) (hl : c ∉ l) :
    jsSplit c l = [l] := by
  induction l with
  | nil => rfl
  | cons x xs ih =>
    have hx : x ≠ c := fun h => hl (h ▸ List.mem_cons_self x xs)
    have hxs : c ∉ xs := fun h => hl (List.mem_cons_of_mem _ h)
    simp only [jsSplit, if_neg hx, ih hxs]

theorem jsSplit_append_cons (c : Char) (l r : List Char) (hl : c ∉ l) :
    jsSplit c (l ++ c :: r) = l :: jsSplit c r := by
  induction l with
  | nil => simp [jsSplit]
  | cons x xs ih =>
    have hx : x ≠ c := fun h => hl (h ▸ List.mem_cons_self x xs)
    have hxs : c ∉ xs := fun h => hl (List.mem_cons_of_mem _ h)
    simp only [List.cons_append, jsSplit, if_neg hx, List.append_eq, ih hxs]

theorem jsSplit_joinSep (c : Char) :
    ∀ (ls : List (List Char)), ls ≠ [] → (∀ x ∈ ls, c ∉ x) →
      jsSplit c (joinSep c ls) = ls := by
  intro ls
  induction ls with
  | nil => intro h; exact absurd rfl h
  | cons l ls ih =>
    intro _ hall
    cases ls with
    | nil => simpa [joinSep] using jsSplit_of_not_mem c l (hall l (List.mem_cons_self l []))
    | cons m ms =>
      have hstep : joinSep c (l :: m :: ms) = l ++ c :: joinSep c (m :: ms) := rfl
      rw [hstep, jsSplit_append_cons c l _ (hall l (List.mem_cons_self _ _)),
        ih (by simp) (fun x hx => hall x (List.mem_cons_of_mem _ hx))]

theorem isPrefixOf_append_self (p t : List Char) : p.isPrefixOf (p ++ t) = true := by
  induction p with
  | nil => simp
  | cons a as ih => simp [List.isPrefixOf_cons₂, ih]

theorem jsIncludes_cons (p : List Char) (a : Char) (u : List Char) :
    jsIncludes p (a :: u) = (p.isPrefixOf (a :: u) || jsIncludes p u) := rfl

theorem jsIncludes_middle (p s t : List Char) : jsIncludes p (s ++ p ++ t) = true := by
  induction s with
  | nil =>
    cases hq : p ++ t with
    | nil =>
      have hp : p = [] := (List.append_eq_nil.mp hq).1
      have ht : t = [] := (List.append_eq_nil.mp hq).2
      subst hp; subst ht; rfl
    | cons a u =>
      show jsIncludes p (p ++ t) = true
      rw [hq, jsIncludes_cons, ← hq, isPrefixOf_append_self]
      simp
  | cons a as ih =>
    show jsIncludes p (a :: (as ++ p ++ t)) = true
    rw [jsIncludes_cons, ih]
    simp

theorem dropWhile_append_neg (p : Char → Bool) (l₁ l₂ : List Char) (a : Char)
    (ha : p a = false) :
    (l₁ ++ a :: l₂).dropWhile p = l₁.dropWhile p ++ a :: l₂ := by
  induction l₁ with
  | nil => simp [List.dropWhile_cons, ha]
  | cons x xs ih =>
    by_cases hx : p x <;> simp [List.dropWhile_cons, hx, ih]

theorem takeWhile_append_neg (p : Char → Bool) (l₁ l₂ : List Char) (a : Char)
    (h₁ : ∀ x ∈ l₁, p x = true) (ha : p a = false) :
    (l₁ ++ a :: l₂).takeWhile p = l₁ := by
  induction l₁ with
  | nil => simp [List.takeWhile_cons, ha]
  | cons x xs ih =>
    simp [List.takeWhile_cons, h₁ x (List.mem_cons_self x xs),
      ih (fun y hy => h₁ y (List.mem_cons_of_mem _ hy))]

/-! ## Env merge lemmas -/

theorem trimLeft_cons_neg (h : Char) (t : List Char) (hh : jsIsSpace h = false) :
    trimLeft (h :: t) = h :: t := by
  simp [trimLeft, List.dropWhile_cons, hh]

theorem trimRight_keyline (k v : List Char) :
    trimRight (k ++ '=' :: v) = k ++ '=' :: trimRight v := by
  unfold trimRight
  rw [List.reverse_append, List.reverse_cons, List.append_assoc, List.singleton_append,
    dropWhile_append_neg jsIsSpace v.reverse k.reverse '=' (by decide),
    List.reverse_append, List.reverse_cons, List.reverse_reverse]
  simp

theorem goodEnvKey_unpack (k : List Char) (hk : goodEnvKey k = true) :
    ∃ h t, k = h :: t ∧ jsIsSpace h = false ∧ h ≠ '#' ∧ ('=' ∉ k) ∧ ('\n' ∉ k) := by
  cases k with
  | nil => simp [goodEnvKey] at hk
  | cons h t =>
    simp only [goodEnvKey, Bool.and_eq_true, Bool.not_eq_true'] at hk
    obtain ⟨⟨⟨h1, h2⟩, h3⟩, h4⟩ := hk
    refine ⟨h, t, rfl, h1, by simpa using h2, ?_, ?_⟩
    · intro hmem
      have : (h :: t).contains '=' = true := by
        simp [List.contains, List.elem_eq_mem, hmem]
      rw [this] at h3; cases h3
    · intro hmem
      have : (h :: t).contains '\n' = true := by
        simp [List.contains, List.elem_eq_mem, hmem]
      rw [this] at h4; cases h4

theorem envKeyOf_keyline (k v : List Char) (hk : goodEnvKey k = true) :
    envKeyOf (k ++ '=' :: v) = some k := by
  obtain ⟨h, t, rfl, hsp, hhash, heq, -⟩ := goodEnvKey_unpack k hk
  have htrim : jsTrim ((h :: t) ++ '=' :: v) = (h :: t) ++ '=' :: trimRight v := by
    rw [jsTrim, trimRight_keyline]
    exact trimLeft_cons_neg h (t ++ '=' :: trimRight v) hsp
  have hcontains : ((h :: t) ++ '=' :: trimRight v).contains '=' = true := by
    simp [List.contains, List.elem_eq_mem]
  have htake : ((h :: t) ++ '=' :: trimRight v).takeWhile (fun c => c ≠ '=') = h :: t := by
    refine takeWhile_append_neg _ _ _ _ (fun x hx => ?_) (by simp)
    simp only [decide_eq_true_eq]
    intro hx2
    exact heq (hx2 ▸ hx)
  simp only [envKeyOf, htrim, hcontains, htake]
  have hhead : ((h :: t) ++ '=' :: trimRight v).head? = some h := rfl
  rw [hhead]
  simp [hhash]

theorem lookupUpd_mem (u : List (List Char × List Char)) (k v : List Char)
    (h : lookupUpd u k = some v) : (k, v) ∈ u := by
  induction u with
  | nil => cases h
  | cons p ps ih =>
    obtain ⟨pk, pv⟩ := p
    simp only [lookupUpd] at h
    by_cases hk : pk = k
    · rw [if_pos hk] at h
      injection h with h
      subst hk; subst h
      exact List.mem_cons_self _ _
    · rw [if_neg hk] at h
      exact List.mem_cons_of_mem _ (ih h)

theorem lookupUpd_isSome_of_mem (u : List (List Char × List Char)) (k v : List Char)
    (h : (k, v) ∈ u) : ∃ w, lookupUpd u k = some w := by
  induction u with
  | nil => cases h
  | cons p ps ih =>
    obtain ⟨pk, pv⟩ := p
    rcases List.mem_cons.mp h with h1 | h1
    · injection h1 with h1 h2
      exact ⟨pv, by simp [lookupUpd, h1]⟩
    · by_cases hk : pk = k
      · exact ⟨pv, by simp [lookupUpd, hk]⟩
      · obtain ⟨w, hw⟩ := ih h1
        exact ⟨w, by simp [lookupUpd, hk, hw]⟩

theorem lookupUpd_of_mem_nodup (u : List (List Char × List Char)) (k v : List Char)
    (hnd : (u.map Prod.fst).Nodup) (h : (k, v) ∈ u) : lookupUpd u k = some v := by
  induction u with
  | nil => cases h
  | cons p ps ih =>
    obtain ⟨pk, pv⟩ := p
    simp only [List.map_cons, List.nodup_cons] at hnd
    rcases List.mem_cons.mp h with h1 | h1
    · injection h1 with h1 h2
      simp [lookupUpd, h1, h2]
    · have hne : pk ≠ k := by
        intro he
        exact hnd.1 (he ▸ (List.mem_map.mpr ⟨(k, v), h1, rfl⟩))
      simp [lookupUpd, hne, ih hnd.2 h1]

theorem mergeLine_idem (u : List (List Char × List Char))
    (hgood : ∀ p ∈ u, goodEnvKey p.1 = true) (l : List Char) :
    mergeLine u (mergeLine u l) = mergeLine u l := by
  cases hk : envKeyOf l with
  | none => simp [mergeLine, hk]
  | some k =>
    cases hv : lookupUpd u k with
    | none => simp [mergeLine, hk, hv]
    | some v =>
      have hgk : goodEnvKey k = true := hgood _ (lookupUpd_mem u k v hv)
      simp [mergeLine, hk, hv, envKeyOf_keyline k v hgk]

theorem mergeLine_keyline (u : List (List Char × List Char)) (k v : List Char)
    (hgk : goodEnvKey k = true) (hv : lookupUpd u k = some v) :
    mergeLine u (k ++ '=' :: v) = k ++ '=' :: v := by
  simp [mergeLine, envKeyOf_keyline k v hgk, hv]

theorem map_eq_self_of_fix {α : Type} (f : α → α) (l : List α)
    (h : ∀ x ∈ l, f x = x) : l.map f = l := by
  induction l with
  | nil => rfl
  | cons x xs ih =>
    rw [List.map_cons, h x (List.mem_cons_self x xs),
      ih (fun y hy => h y (List.mem_cons_of_mem _ hy))]

theorem foundIn_iff (lines : List (List Char)) (k : List Char) :
    foundIn lines k = true ↔ ∃ l ∈ lines, envKeyOf l = some k := by
  simp [foundIn, List.any_eq_true]

theorem foundIn_mergeLines (u : List (List Char × List Char))
    (lines : List (List Char)) (k v : List Char)
    (hnd : (u.map Prod.fst).Nodup) (hgood : ∀ p ∈ u, goodEnvKey p.1 = true)
    (hmem : (k, v) ∈ u) :
    foundIn (mergeLines u lines) k = true := by
  have hgk : goodEnvKey k = true := hgood (k, v) hmem
  have hlk : lookupUpd u k = some v := lookupUpd_of_mem_nodup u k v hnd hmem
  rw [foundIn_iff]
  by_cases hf : foundIn lines k = true
  · obtain ⟨l, hl, hkey⟩ := (foundIn_iff lines k).mp hf
    refine ⟨k ++ '=' :: v, ?_, envKeyOf_keyline k v hgk⟩
    refine List.mem_append_left _ (List.mem_map.mpr ⟨l, hl, ?_⟩)
    simp [mergeLine, hkey, hlk]
  · refine ⟨k ++ '=' :: v, ?_, envKeyOf_keyline k v hgk⟩
    refine List.mem_append_right _ (List.mem_map.mpr ⟨(k, v), ?_, rfl⟩)
    refine List.mem_filter.mpr ⟨hmem, ?_⟩
    simp [Bool.not_eq_true] at hf
    simp [hf]

theorem not_mem_of_goodEnvVal (v : List Char) (h : goodEnvVal v = true) : '\n' ∉ v := by
  intro hm
  simp [goodEnvVal, List.contains, List.elem_eq_mem, hm] at h

theorem mergeLine_cases (u : List (List Char × List Char)) (l : List Char) :
    mergeLine u l = l ∨ ∃ k v, (k, v) ∈ u ∧ mergeLine u l = k ++ '=' :: v := by
  cases hk : envKeyOf l with
  | none => left; simp [mergeLine, hk]
  | some k =>
    cases hv : lookupUpd u k with
    | none => left; simp [mergeLine, hk, hv]
    | some v =>
      right
      exact ⟨k, v, lookupUpd_mem u k v hv, by simp [mergeLine, hk, hv]⟩

theorem mem_mergeLines_shape (u : List (List Char × List Char))
    (lines : List (List Char)) (x : List Char) (hx : x ∈ mergeLines u lines) :
    (x ∈ lines) ∨ (∃ k v, (k, v) ∈ u ∧ x = k ++ '=' :: v) := by
  rcases List.mem_append.mp hx with h | h
  · obtain ⟨l, hl, rfl⟩ := List.mem_map.mp h
    rcases mergeLine_cases u l with h1 | ⟨k, v, hkv, h1⟩
    · left; rw [h1]; exact hl
    · right; exact ⟨k, v, hkv, h1⟩
  · obtain ⟨⟨k, v⟩, hkv, rfl⟩ := List.mem_map.mp h
    right
    exact ⟨k, v, (List.mem_filter.mp hkv).1, rfl⟩

theorem mergeLines_no_newline (u : List (List Char × List Char))
    (lines : List (List Char))
    (hlines : ∀ l ∈ lines, '\n' ∉ l)
    (hgood : ∀ p ∈ u, goodEnvKey p.1 = true)
    (hvals : ∀ p ∈ u, goodEnvVal p.2 = true) :
    ∀ x ∈ mergeLines u lines, '\n' ∉ x := by
  intro x hx
  rcases mem_mergeLines_shape u lines x hx with h | ⟨k, v, hkv, rfl⟩
  · exact hlines x h
  · intro hm
    rcases List.mem_append.mp hm with h1 | h1
    · obtain ⟨-, -, -, -, -, -, hnk⟩ := goodEnvKey_unpack k (hgood (k, v) hkv)
      exact hnk h1
    · rcases List.mem_cons.mp h1 with h2 | h2
      · cases h2
      · exact not_mem_of_goodEnvVal v (hvals (k, v) hkv) h2

theorem mergeLines_fix (u : List (List Char × List Char))
    (lines : List (List Char))
    (hnd : (u.map Prod.fst).Nodup) (hgood : ∀ p ∈ u, goodEnvKey p.1 = true) :
    ∀ x ∈ mergeLines u lines, mergeLine u x = x := by
  intro x hx
  rcases List.mem_append.mp hx with h | h
  · obtain ⟨l, hl, rfl⟩ := List.mem_map.mp h
    exact mergeLine_idem u hgood l
  · obtain ⟨⟨k, v⟩, hkv, rfl⟩ := List.mem_map.mp h
    have hmem : (k, v) ∈ u := (List.mem_filter.mp hkv).1
    exact mergeLine_keyline u k v (hgood _ hmem) (lookupUpd_of_mem_nodup u k v hnd hmem)

theorem mergeLines_idem (u : List (List Char × List Char))
    (lines : List (List Char))
    (hnd : (u.map Prod.fst).Nodup) (hgood : ∀ p ∈ u, goodEnvKey p.1 = true) :
    mergeLines u (mergeLines u lines) = mergeLines u lines := by
  have hmap : (mergeLines u lines).map (mergeLine u) = mergeLines u lines :=
    map_eq_self_of_fix _ _ (mergeLines_fix u lines hnd hgood)
  have hfilter : u.filter (fun p => !(foundIn (mergeLines u lines) p.1)) = [] := by
    rw [List.filter_eq_nil_iff]
    intro p hp
    obtain ⟨k, v⟩ := p
    rw [foundIn_mergeLines u lines k v hnd hgood hp]
    simp
  rw [mergeLines, hmap, hfilter, List.map_nil, List.append_nil]

theorem mergeLines_ne_nil (u : List (List Char × List Char))
    (lines : List (List Char)) (h : lines ≠ []) : mergeLines u lines ≠ [] := by
  cases lines with
  | nil => exact absurd rfl h
  | cons l ls => simp [mergeLines]

theorem string_data_injective : Function.Injective String.data := by
  intro a b h
  cases a; cases b; exact congrArg String.mk h

/-- C5 (amended).  The env merge is idempotent for update maps whose
keys are distinct well-formed env keys (non-empty, not starting with
whitespace or `#`, containing neither `=` nor a newline) and whose
values contain no newline — which covers every update map the tool ever
passes; and every line whose key matches no update entry (comments and
malformed lines included) is preserved verbatim at its original
position.  The unrestricted claim is refuted by
`claim_c5_counterexample`. -/
theorem claim_c5 (updates : List (String × String)) (content : String)
    (hnd : (updates.map Prod.fst).Nodup)
    (hkeys : ∀ p ∈ updates, goodEnvKey p.1.data = true)
    (hvals : ∀ p ∈ updates, goodEnvVal p.2.data = true) :
    updateEnvContent updates (updateEnvContent updates content) =
      updateEnvContent updates content ∧
    ∀ (i : Nat) (line : List Char), (jsSplit '\n' content.data)[i]? = some line →
      notUpdated (updates.map (fun p => (p.1.data, p.2.data))) line = true →
      (jsSplit '\n' (updateEnvContent updates content).data)[i]? = some line := by
  set U : List (List Char × List Char) :=
    updates.map (fun p => (p.1.data, p.2.data)) with hU
  set L : List (List Char) := jsSplit '\n' content.data with hL
  have hndU : (U.map Prod.fst).Nodup := by
    rw [hU, List.map_map]
    have : (Prod.fst ∘ fun p : String × String => (p.1.data, p.2.data)) =
        String.data ∘ Prod.fst := rfl
    rw [this, ← List.map_map]
    exact hnd.map string_data_injective
  have hgoodU : ∀ p ∈ U, goodEnvKey p.1 = true := by
    intro p hp
    obtain ⟨q, hq, rfl⟩ := List.mem_map.mp hp
    exact hkeys q hq
  have hvalsU : ∀ p ∈ U, goodEnvVal p.2 = true := by
    intro p hp
    obtain ⟨q, hq, rfl⟩ := List.mem_map.mp hp
    exact hvals q hq
  have hLnn : ∀ l ∈ L, '\n' ∉ l := fun l hl =>
    not_mem_of_mem_jsSplit '\n' content.data l hl
  have hdata : (updateEnvContent updates content).data = joinSep '\n' (mergeLines U L) := rfl
  have hsplit : jsSplit '\n' (updateEnvContent updates content).data = mergeLines U L := by
    rw [hdata]
    exact jsSplit_joinSep '\n' _ (mergeLines_ne_nil _ _ (jsSplit_ne_nil _ _))
      (mergeLines_no_newline U L hLnn hgoodU hvalsU)
  constructor
  · show String.mk (joinSep '\n'
      (mergeLines U (jsSplit '\n' (updateEnvContent updates content).data))) =
      updateEnvContent updates content
    rw [hsplit, mergeLines_idem U L hndU hgoodU]
    exact string_data_injective hdata.symm
  · intro i line hi hnu
    rw [hsplit]
    have hlen : i < L.length := by
      rcases List.getElem?_eq_some.mp hi with ⟨h, -⟩
      exact h
    have hlen2 : i < (L.map (mergeLine U)).length := by
      rw [List.length_map]; exact hlen
    rw [mergeLines, List.getElem?_append_left hlen2, List.getElem?_map, hi]
    have hfix : mergeLine U line = line := by
      unfold notUpdated at hnu
      cases hk : envKeyOf line with
      | none => simp [mergeLine, hk]
      | some k =>
        rw [hk] at hnu
        have : lookupUpd U k = none := Option.isNone_iff_eq_none.mp hnu
        simp [mergeLine, hk, this]
    simp [hfix]

/-- C5 counterexample: with the update map `{"#X": "v"}` on empty
content the merge is not idempotent — the appended line re-trims to a
comment, so the key is never "found" again and is appended a second
time. -/
theorem claim_c5_counterexample :
    updateEnvContent [("#X", "v")] (updateEnvContent [("#X", "v")] "") ≠
      updateEnvContent [("#X", "v")] "" := by decide

/-- C5 witness at Scenario A's inputs. -/
theorem claim_c5_witness :
    updateEnvContent [("APP_ENV", "production"), ("APP_LOCALE", "es")]
        (updateEnvContent [("APP_ENV", "production"), ("APP_LOCALE", "es")]
          "APP_ENV=local\n# comment\n") =
      updateEnvContent [("APP_ENV", "production"), ("APP_LOCALE", "es")]
        "APP_ENV=local\n# comment\n" ∧
    (jsSplit '\n' (updateEnvContent [("APP_ENV", "production"), ("APP_LOCALE", "es")]
        "APP_ENV=local\n# comment\n").data)[1]? = some "# comment".data := by
  have h := claim_c5 [("APP_ENV", "production"), ("APP_LOCALE", "es")]
    "APP_ENV=local\n# comment\n" (by decide) (by decide) (by decide)
  exact ⟨h.1, h.2 1 "# comment".data (by decide) (by decide)⟩

/-- C6 (amended).  Scenario A on the real code: the trailing newline of
the input produces a final empty line, which survives the merge
verbatim, so the appended key lands after a blank line. -/
theorem claim_c6 :
    updateEnvContent [("APP_ENV", "production"), ("APP_LOCALE", "es")]
        "APP_ENV=local\n# comment\n" =
      "APP_ENV=production\n# comment\n\nAPP_LOCALE=es" := by decide

/-- C6 counterexample: the output claimed by the spec (no blank line
before the appended key) is not what the merge produces. -/
theorem claim_c6_counterexample :
    updateEnvContent [("APP_ENV", "production"), ("APP_LOCALE", "es")]
        "APP_ENV=local\n# comment\n" ≠
      "APP_ENV=production\n# comment\nAPP_LOCALE=es" := by decide

theorem string_length_mk (l : List Char) : (String.mk l).length = l.length := rfl

/-- C4.  `truncate` leaves streams of length at most 8192 unchanged and
cuts longer ones to exactly their first 8192 characters followed by the
marker naming the `length - 8192` omitted characters. -/
theorem claim_c4 (s : String) :
    (8192 < s.length →
      truncate s = String.mk (s.data.take 8192) ++ truncationMarker (s.length - 8192)) ∧
    (s.length ≤ 8192 → truncate s = s) := by
  constructor
  · intro h
    have hne : s ≠ "" := by
      intro he
      rw [he] at h
      have h0 : ("" : String).length = 0 := rfl
      omega
    unfold truncate
    rw [if_neg hne, if_pos (by omega : s.length > 8192)]
  · intro h
    unfold truncate
    by_cases he : s = ""
    · rw [if_pos he, he]
    · rw [if_neg he, if_neg (by omega : ¬s.length > 8192)]

/-- C4 witness: an 8193-character stream is cut to 8192 characters plus
the 1-character marker; a short stream is unchanged. -/
theorem claim_c4_witness :
    truncate (String.mk (List.replicate 8193 'a')) =
      String.mk (List.replicate 8192 'a') ++ truncationMarker 1 ∧
    truncate "boom" = "boom" := by
  constructor
  · have hlen : (String.mk (List.replicate 8193 'a')).length = 8193 := by
      rw [string_length_mk, List.length_replicate]
    have h := (claim_c4 (String.mk (List.replicate 8193 'a'))).1 (by rw [hlen]; norm_num)
    have hdata : (String.mk (List.replicate 8193 'a')).data = List.replicate 8193 'a' := rfl
    rw [h, hlen, hdata, List.take_replicate,
      Nat.min_eq_left (by norm_num : 8192 ≤ 8193)]
  · exact (claim_c4 "boom").2 (by decide)

/-- C3.  `run` never throws: every outcome is returned as data with
status `success` or `error`; a successful execution carries the
truncated streams and duration, a rejection carries the available
truncated streams and the underlying error object; in particular a
non-zero exit with stderr `"boom"` yields status `error` and stderr
`"boom"` with the error preserved. -/
theorem claim_c3 (t : Nat) (out err : String) (e : ExecaError) (o : ExecaOutcome) :
    run (.ok (out, err)) t =
      ⟨"success", t, truncate out, truncate err, none⟩ ∧
    run (.error e) t =
      ⟨"error", t, truncate (e.stdout.getD ""), truncate (jsOrStr e.stderr e.message), some e⟩ ∧
    ((run o t).status = "success" ∨ (run o t).status = "error") ∧
    (run (.error ⟨"Command failed with exit code 1", some "", some "boom", some 1⟩) t).status =
      "error" ∧
    (run (.error ⟨"Command failed with exit code 1", some "", some "boom", some 1⟩) t).stderr =
      "boom" ∧
    (run (.error ⟨"Command failed with exit code 1", some "", some "boom", some 1⟩) t).error =
      some ⟨"Command failed with exit code 1", some "", some "boom", some 1⟩ := by
  refine ⟨rfl, rfl, ?_, rfl, ?_, rfl⟩
  · cases o with
    | ok p => obtain ⟨a, b⟩ := p; exact Or.inl rfl
    | error e2 => exact Or.inr rfl
  · show truncate (jsOrStr (some "boom") "Command failed with exit code 1") = "boom"
    decide

/-- C7 (amended).  Color output is enabled exactly when the json flag is
off, `--no-color` is not set, `--color` is not explicitly false, and a
TTY is attached on both streams; the explicit force-enable flag does
not override the TTY check, because the TTY test precedes it.  The
claimed override is refuted by `claim_c7_counterexample`. -/
theorem claim_c7 (ctx : ColorCtx) (tty : Bool) :
    colorsEnabled ctx tty =
      (!ctx.json && !(ctx.noColor == some true) && !(ctx.color == some false) && tty) := by
  obtain ⟨j, nc, c⟩ := ctx
  cases j <;> cases tty <;>
    rcases nc with _ | nb <;> rcases c with _ | cb <;>
    first
      | rfl
      | (cases nb <;> first | rfl | (cases cb <;> rfl))
      | (cases cb <;> rfl)

/-- C7 counterexample: with json off, no disable flag, the force flag
set and no TTY, the code disables color although the claimed condition
(force overrides the terminal check) enables it. -/
theorem claim_c7_counterexample :
    colorsEnabled ⟨false, none, some true⟩ false = false ∧
    colorsEnabledClaim ⟨false, none, some true⟩ false = true ∧
    colorsEnabled ⟨false, none, some true⟩ false ≠
      colorsEnabledClaim ⟨false, none, some true⟩ false := by decide

/-! ## Pipeline theorems -/

/-- C1 (amended).  When the steps before `s` all succeed and `s`'s
action appends its partial events and then throws, the run aborts: no
later step's action contributes (the outcome does not depend on `post`
at all), the event log is exactly the events accumulated before the
failure plus the failing step's partial events, the terminal status is
`failed` with exit behaviour carrying the thrown message — but the
rendered error's `step` field is `none`, because tasks throw plain
`new Error(msg)` objects that never attach a step name (the original
claim's "referencing the failing step" is refuted by
`claim_c1_counterexample`). -/
theorem claim_c1 (pre post : List PipeStep) (s : PipeStep)
    (evs0 evs1 midEvs : List Event) (msg : String)
    (hpre : runPipeline pre evs0 = .completed evs1)
    (hfail : s.action evs1 = (evs1 ++ midEvs, some (mkJsError msg))) :
    runPipeline (pre ++ s :: post) evs0 = .failed (evs1 ++ midEvs) (mkJsError msg) ∧
    renderedError (mkJsError msg) = (msg, none) := by
  refine ⟨?_, rfl⟩
  induction pre generalizing evs0 with
  | nil =>
    have h : evs1 = evs0 := by
      have := hpre
      simp only [runPipeline] at this
      injection this with h
      exact h.symm
    subst h
    simp only [List.nil_append, runPipeline, hfail]
  | cons p ps ih =>
    rcases hp : p.action evs0 with ⟨evs2, oe⟩
    cases oe with
    | none =>
      have hpre2 : runPipeline ps evs2 = .completed evs1 := by
        have := hpre
        simp only [runPipeline, hp] at this
        exact this
      have := ih evs2 hpre2
      simp only [List.cons_append, runPipeline, hp]
      exact this
    | some e =>
      exfalso
      have := hpre
      simp only [runPipeline, hp] at this
      cases this

/-- C1 counterexample (Scenario C): in a three-step run where step 2
throws, the log holds step 1's event and step 2's partial event only
and the status is failed — yet the rendered error references no step:
its `step` field is `none`, not the failing step's title. -/
theorem claim_c1_counterexample :
    runPipeline [stepOne, stepTwo, stepThree] [] =
      .failed [⟨"prechecks", "success", some 5, none, none⟩,
               ⟨"laravel_new", "error", some 7, none, some "boom"⟩]
        (mkJsError "Fallo al crear el proyecto Laravel") ∧
    stepTwo.title = "Scaffold del proyecto" ∧
    (renderedError (mkJsError "Fallo al crear el proyecto Laravel")).2 = none ∧
    (renderedError (mkJsError "Fallo al crear el proyecto Laravel")).2 ≠
      some "Scaffold del proyecto" := by
  refine ⟨by decide, rfl, rfl, by decide⟩

/-- C1 witness: `claim_c1` applied to the concrete Scenario C run. -/
theorem claim_c1_witness :
    runPipeline ([stepOne] ++ stepTwo :: [stepThree]) [] =
      .failed ([⟨"prechecks", "success", some 5, none, none⟩] ++
               [⟨"laravel_new", "error", some 7, none, some "boom"⟩])
        (mkJsError "Fallo al crear el proyecto Laravel") ∧
    renderedError (mkJsError "Fallo al crear el proyecto Laravel") =
      ("Fallo al crear el proyecto Laravel", none) :=
  claim_c1 [stepOne] [stepThree] stepTwo []
    [⟨"prechecks", "success", some 5, none, none⟩]
    [⟨"laravel_new", "error", some 7, none, some "boom"⟩]
    "Fallo al crear el proyecto Laravel" (by decide) (by decide)

/-! ## Validation theorems -/

theorem string_data_append (a b : String) : (a ++ b).data = a.data ++ b.data := by
  cases a; cases b; rfl

theorem jsIncludes_append_left (p s t : List Char) (h : jsIncludes p t = true) :
    jsIncludes p (s ++ t) = true := by
  induction s with
  | nil => simpa using h
  | cons a as ih => rw [List.cons_append, jsIncludes_cons, ih]; simp

theorem jsIncludes_self_append (p t : List Char) : jsIncludes p (p ++ t) = true := by
  simpa using jsIncludes_middle p [] t

theorem jsIncludes_joinStrs (sep f : String) :
    ∀ l : List String, f ∈ l → jsIncludes f.data (joinStrs sep l).data = true := by
  intro l
  induction l with
  | nil => intro h; cases h
  | cons x xs ih =>
    intro hf
    cases xs with
    | nil =>
      rcases List.mem_cons.mp hf with h | h
      · subst h
        simpa using jsIncludes_self_append f.data []
      · cases h
    | cons y ys =>
      have hjoin : joinStrs sep (x :: y :: ys) = x ++ sep ++ joinStrs sep (y :: ys) := rfl
      rcases List.mem_cons.mp hf with h | h
      · subst h
        rw [hjoin, string_data_append, string_data_append, List.append_assoc]
        exact jsIncludes_self_append f.data _
      · rw [hjoin, string_data_append, string_data_append]
        exact jsIncludes_append_left _ _ _ (ih h)

theorem mem_flagIf (x name : String) (b : Bool) :
    x ∈ flagIf b name ↔ b = true ∧ x = name := by
  unfold flagIf
  split <;> simp_all

theorem mem_ite_nil_list {c : Prop} [Decidable c] (l : List String) (x : String) :
    x ∈ (if c then l else []) ↔ c ∧ x ∈ l := by
  split <;> simp_all

theorem strFalsy_jsOrDefault (o : Option String) (d : String) (hd : d ≠ "") :
    strFalsy (jsOrDefault o d) = false := by
  unfold jsOrDefault
  split
  · simpa [strFalsy] using hd
  · rename_i h
    simpa using h

theorem mem_validateNonInteractive (i : CliInput) (f : String) :
    f ∈ validateNonInteractive i ↔ requiredUnsetFlag i f := by
  simp only [validateNonInteractive, List.mem_append, mem_flagIf, mem_ite_nil_list,
    requiredUnsetFlag]

/-- C2.  In the non-interactive branch, every required flag left unset
(after the defaults are filled) is reported: the stage fails with exit
code 1, the single missing-fields message contains the flag's name, the
pipeline is never started (no events); and Scenario D's mysql run with
all five connection flags unset reports exactly the five connection
flags and no others. -/
theorem claim_c2 (i0 : CliInput) (ni : Bool) (f : String)
    (mkSteps : CliInput → List PipeStep)
    (hf : requiredUnsetFlag (applyNonInteractiveDefaults ni i0) f) :
    (∀ g, g ∈ validateNonInteractive (applyNonInteractiveDefaults ni i0) ↔
      requiredUnsetFlag (applyNonInteractiveDefaults ni i0) g) ∧
    resolveNonInteractive ni i0 =
      .error (1, missingMessage (validateNonInteractive (applyNonInteractiveDefaults ni i0))) ∧
    jsIncludes f.data
      (missingMessage (validateNonInteractive (applyNonInteractiveDefaults ni i0))).data =
      true ∧
    runCreateModel ni i0 mkSteps =
      .validationError 1
        (missingMessage (validateNonInteractive (applyNonInteractiveDefaults ni i0))) [] ∧
    validateNonInteractive (applyNonInteractiveDefaults true mysqlScenarioInput) =
      ["--db-host", "--db-port", "--db-name", "--db-user", "--db-password"] := by
  have hf2 : f ∈ validateNonInteractive (applyNonInteractiveDefaults ni i0) :=
    (mem_validateNonInteractive _ f).mpr hf
  have hne : validateNonInteractive (applyNonInteractiveDefaults ni i0) ≠ [] :=
    List.ne_nil_of_mem hf2
  have hres : resolveNonInteractive ni i0 =
      .error (1, missingMessage (validateNonInteractive (applyNonInteractiveDefaults ni i0))) := by
    simp only [resolveNonInteractive]
    rw [if_neg hne]
  refine ⟨fun g => mem_validateNonInteractive _ g, hres, ?_, ?_, by decide⟩
  · unfold missingMessage
    rw [string_data_append]
    exact jsIncludes_append_left _ _ _ (jsIncludes_joinStrs ", " f _ hf2)
  · simp only [runCreateModel, hres]

/-- C2 witness: `claim_c2` at Scenario D's concrete input. -/
theorem claim_c2_witness :
    resolveNonInteractive true mysqlScenarioInput =
      .error (1, missingMessage (validateNonInteractive
        (applyNonInteractiveDefaults true mysqlScenarioInput))) ∧
    jsIncludes "--db-host".data
      (missingMessage (validateNonInteractive
        (applyNonInteractiveDefaults true mysqlScenarioInput))).data = true ∧
    runCreateModel true mysqlScenarioInput (fun _ => []) =
      .validationError 1 (missingMessage (validateNonInteractive
        (applyNonInteractiveDefaults true mysqlScenarioInput))) [] ∧
    validateNonInteractive (applyNonInteractiveDefaults true mysqlScenarioInput) =
      ["--db-host", "--db-port", "--db-name", "--db-user", "--db-password"] :=
  (claim_c2 mysqlScenarioInput true "--db-host" (fun _ => [])
    (by simp [requiredUnsetFlag, applyNonInteractiveDefaults, mysqlScenarioInput,
      jsOrDefault, strFalsy])).2

/-- C9.  In the defaults-then-validate branch (e.g. `--json` without
`--non-interactive`), the starter kit defaults to react, the database
to sqlite and the Filament credentials to Admin / admin@admin.com /
password before validation, so a run whose database resolves to sqlite
can only ever be missing `--project-name`; and in every non-interactive
run (strict or not) the starter-kit and database flags are never
reported missing. -/
theorem claim_c9 (i0 j0 : CliInput) (ni : Bool)
    (hdb : (applyNonInteractiveDefaults false i0).db = some "sqlite") :
    validateNonInteractive (applyNonInteractiveDefaults false i0) =
      flagIf (strFalsy i0.projectName) "--project-name" ∧
    (strFalsy i0.starterKit = true →
      (applyNonInteractiveDefaults false i0).starterKit = some "react") ∧
    (strFalsy i0.db = true → (applyNonInteractiveDefaults false i0).db = some "sqlite") ∧
    (strFalsy i0.filamentName = true →
      (applyNonInteractiveDefaults false i0).filamentName = some "Admin") ∧
    (strFalsy i0.filamentEmail = true →
      (applyNonInteractiveDefaults false i0).filamentEmail = some "admin@admin.com") ∧
    (strFalsy i0.filamentPassword = true →
      (applyNonInteractiveDefaults false i0).filamentPassword = some "password") ∧
    "--starter-kit" ∉ validateNonInteractive (applyNonInteractiveDefaults ni j0) ∧
    "--db" ∉ validateNonInteractive (applyNonInteractiveDefaults ni j0) := by
  obtain ⟨pn, sk, db, dh, dp, dn, du, dpw, fn, fe, fp⟩ := i0
  have hdb2 : jsOrDefault db "sqlite" = some "sqlite" := hdb
  have hsk : strFalsy (jsOrDefault sk "react") = false :=
    strFalsy_jsOrDefault sk "react" (by decide)
  have hdbf : strFalsy (some "sqlite") = false := by decide
  have hfn : strFalsy (jsOrDefault fn "Admin") = false :=
    strFalsy_jsOrDefault fn "Admin" (by decide)
  have hfe : strFalsy (jsOrDefault fe "admin@admin.com") = false :=
    strFalsy_jsOrDefault fe "admin@admin.com" (by decide)
  have hfp : strFalsy (jsOrDefault fp "password") = false :=
    strFalsy_jsOrDefault fp "password" (by decide)
  have hcond : ¬((some "sqlite" : Option String) = some "mysql" ∨
      (some "sqlite" : Option String) = some "postgresql") := by decide
  refine ⟨?_, ?_, ?_, ?_, ?_, ?_, ?_, ?_⟩
  · show validateNonInteractive
      ⟨pn, jsOrDefault sk "react", jsOrDefault db "sqlite", dh, dp, dn, du, dpw,
        jsOrDefault fn "Admin", jsOrDefault fe "admin@admin.com",
        jsOrDefault fp "password"⟩ = flagIf (strFalsy pn) "--project-name"
    simp only [validateNonInteractive, hdb2, hsk, hdbf, hfn, hfe, hfp]
    rw [if_neg hcond]
    simp [flagIf]
  · intro h
    show jsOrDefault sk "react" = some "react"
    unfold jsOrDefault
    rw [if_pos h]
  · intro h
    show jsOrDefault db "sqlite" = some "sqlite"
    unfold jsOrDefault
    rw [if_pos h]
  · intro h
    show jsOrDefault fn "Admin" = some "Admin"
    unfold jsOrDefault
    rw [if_pos h]
  · intro h
    show jsOrDefault fe "admin@admin.com" = some "admin@admin.com"
    unfold jsOrDefault
    rw [if_pos h]
  · intro h
    show jsOrDefault fp "password" = some "password"
    unfold jsOrDefault
    rw [if_pos h]
  · obtain ⟨qn, qsk, qdb, qdh, qdp, qdn, qdu, qdpw, qfn, qfe, qfp⟩ := j0
    have hsk2 : strFalsy (jsOrDefault qsk "react") = false :=
      strFalsy_jsOrDefault qsk "react" (by decide)
    have hdb3 : strFalsy (jsOrDefault qdb "sqlite") = false :=
      strFalsy_jsOrDefault qdb "sqlite" (by decide)
    intro hmem
    cases ni <;>
      simp only [applyNonInteractiveDefaults, Bool.false_eq_true, if_true, if_false,
        ite_true, ite_false, validateNonInteractive, List.mem_append,
        mem_flagIf, mem_ite_nil_list, hsk2, hdb3] at hmem <;>
      simp_all
  · obtain ⟨qn, qsk, qdb, qdh, qdp, qdn, qdu, qdpw, qfn, qfe, qfp⟩ := j0
    have hsk2 : strFalsy (jsOrDefault qsk "react") = false :=
      strFalsy_jsOrDefault qsk "react" (by decide)
    have hdb3 : strFalsy (jsOrDefault qdb "sqlite") = false :=
      strFalsy_jsOrDefault qdb "sqlite" (by decide)
    intro hmem
    cases ni <;>
      simp only [applyNonInteractiveDefaults, Bool.false_eq_true, if_true, if_false,
        ite_true, ite_false, validateNonInteractive, List.mem_append,
        mem_flagIf, mem_ite_nil_list, hsk2, hdb3] at hmem <;>
      simp_all

/-! ## UserFactory patcher theorems -/

theorem jsIncludes_nil (l : List Char) : jsIncludes [] l = true := by
  induction l with
  | nil => rfl
  | cons c t ih => simp [jsIncludes_cons, ih]

theorem isPrefixOf_mono (p : List Char) :
    ∀ (m t : List Char), p.isPrefixOf m = true → p.isPrefixOf (m ++ t) = true := by
  induction p with
  | nil => intro m t _; simp
  | cons a as ih =>
    intro m t h
    cases m with
    | nil => simp at h
    | cons b bs =>
      rw [List.isPrefixOf_cons₂, Bool.and_eq_true] at h
      rw [List.cons_append, List.isPrefixOf_cons₂, Bool.and_eq_true]
      exact ⟨h.1, ih bs t h.2⟩

theorem jsIncludes_append_right (p : List Char) :
    ∀ (m t : List Char), jsIncludes p m = true → jsIncludes p (m ++ t) = true := by
  intro m
  induction m with
  | nil =>
    intro t h
    have hp : p = [] := by
      cases p with
      | nil => rfl
      | cons a as => simp [jsIncludes, List.isEmpty] at h
    subst hp
    exact jsIncludes_nil t
  | cons c m2 ih =>
    intro t h
    rw [jsIncludes_cons] at h
    rw [List.cons_append, jsIncludes_cons]
    cases hval : p.isPrefixOf (c :: m2) with
    | true =>
      have h2 : p.isPrefixOf (c :: (m2 ++ t)) = true := isPrefixOf_mono p (c :: m2) t hval
      rw [h2]
      simp
    | false =>
      rw [hval] at h
      simp only [Bool.false_or] at h
      simp [ih t h]

theorem jsIncludes_twoFactorInjection (ind : List Char) :
    jsIncludes "two_factor_secret".data (twoFactorInjection ind) = true := by
  unfold twoFactorInjection
  have h1 : jsIncludes "two_factor_secret".data
      "\x27two_factor_secret\x27 => null,\n".data = true := by decide
  have hassoc :
      ind ++ "    ".data ++ "\x27two_factor_secret\x27 => null,\n".data ++
        (ind ++ "    ".data) ++ "\x27two_factor_recovery_codes\x27 => null,\n".data ++
        (ind ++ "    ".data) ++ "\x27two_factor_confirmed_at\x27 => null,\n".data =
      (ind ++ "    ".data) ++ ("\x27two_factor_secret\x27 => null,\n".data ++
        ((ind ++ "    ".data) ++ ("\x27two_factor_recovery_codes\x27 => null,\n".data ++
        ((ind ++ "    ".data) ++ "\x27two_factor_confirmed_at\x27 => null,\n".data)))) := by
    simp [List.append_assoc]
  rw [hassoc]
  exact jsIncludes_append_left _ _ _ (jsIncludes_append_right _ _ _ h1)

theorem jsIncludes_injection_block (a b d ind : List Char) :
    jsIncludes "two_factor_secret".data (a ++ b ++ twoFactorInjection ind ++ d) = true := by
  rw [List.append_assoc (a ++ b)]
  exact jsIncludes_append_left _ _ _
    (jsIncludes_append_right _ _ _ (jsIncludes_twoFactorInjection ind))

theorem patch_on_written (nc : List Char)
    (hfound : jsIncludes "two_factor_secret".data nc = true) :
    patchUserFactoryTwoFactorDefaults (some (String.mk nc)) =
      ⟨false, some "already_present", none⟩ := by
  simp only [patchUserFactoryTwoFactorDefaults]
  have hfound2 : jsIncludes
      ['t', 'w', 'o', '_', 'f', 'a', 'c', 't', 'o', 'r', '_', 's', 'e', 'c', 'r', 'e', 't']
      nc = true := hfound
  rw [hfound2]
  simp

/-- C10.  Every `patched:false` outcome of the UserFactory two-factor
patcher (factory_not_found, already_present, array_not_found,
array_end_not_found, replace_noop) performs no write — the target file
stays byte-for-byte unchanged — and none of these expected conditions
escapes the function; whenever a patch writes new content, applying the
patcher again to that content returns `already_present`. -/
theorem claim_c10 (c? : Option String) (r : PatchOutcome)
    (hr : patchUserFactoryTwoFactorDefaults c? = r) :
    (r.patched = false → r.write = none) ∧
    (∀ w, r.write = some w →
      patchUserFactoryTwoFactorDefaults (some w) =
        ⟨false, some "already_present", none⟩) := by
  subst hr
  cases c? with
  | none => exact ⟨fun _ => rfl, fun w hw => by simp [patchUserFactoryTwoFactorDefaults] at hw⟩
  | some content =>
    simp only [patchUserFactoryTwoFactorDefaults]
    split
    · exact ⟨fun _ => rfl, fun w hw => by simp at hw⟩
    · split
      · exact ⟨fun _ => rfl, fun w hw => by simp at hw⟩
      · split
        · exact ⟨fun _ => rfl, fun w hw => by simp at hw⟩
        · split
          · exact ⟨fun _ => rfl, fun w hw => by simp at hw⟩
          · refine ⟨fun hpf => by simp at hpf, fun w hw => ?_⟩
            simp only [Option.some.injEq] at hw
            subst hw
            exact patch_on_written _ (jsIncludes_injection_block _ _ _ _)

set_option maxRecDepth 8192 in
/-- C10 witness: a missing factory writes nothing, and re-running the
patcher on the content written by a successful patch on `demoFactory`
returns `already_present`. -/
theorem claim_c10_witness :
    (patchUserFactoryTwoFactorDefaults none).write = none ∧
    patchUserFactoryTwoFactorDefaults
        (some ((patchUserFactoryTwoFactorDefaults (some demoFactory)).write.getD "")) =
      ⟨false, some "already_present", none⟩ :=
  ⟨(claim_c10 none _ rfl).1 rfl,
   (claim_c10 (some demoFactory) _ rfl).2 _ (by decide)⟩

/-! ## phpunit patcher theorem -/

set_option maxRecDepth 8192 in
/-- C8 (code-bug evidence).  On a phpunit.xml that already carries an
APP_LOCALE env element at value `es` (and a `colors` attribute), the
patcher of part_000 changes nothing: its replacement regexes are
double-escaped (`\\s` matches a literal backslash), so the env element
is never updated to value `en`, contradicting the claim; the
no-file-found case is a successful no-op as claimed. -/
theorem claim_c8_bug :
    ensurePhpunitTransform phpunitWithLocaleEs = phpunitWithLocaleEs ∧
    jsIncludes "value=\"es\"".data phpunitWithLocaleEs.data = true ∧
    jsIncludes "value=\"en\"".data (ensurePhpunitTransform phpunitWithLocaleEs).data = false ∧
    jsIncludes "name=\"APP_LOCALE\"".data phpunitWithLocaleEs.data = true ∧
    jsIncludes "colors=".data phpunitWithLocaleEs.data = true ∧
    ensurePhpunitAppLocaleEn none none = (none, none) := by decide

/-- C9 witness: with every flag unset the sqlite-defaulted validation
reports only `--project-name`, and the strict non-interactive mysql
scenario never reports the starter-kit or database flags. -/
theorem claim_c9_witness :
    validateNonInteractive (applyNonInteractiveDefaults false
      (⟨none, none, none, none, none, none, none, none, none, none, none⟩ : CliInput)) =
      flagIf (strFalsy (none : Option String)) "--project-name" ∧
    "--starter-kit" ∉
      validateNonInteractive (applyNonInteractiveDefaults true mysqlScenarioInput) ∧
    "--db" ∉ validateNonInteractive (applyNonInteractiveDefaults true mysqlScenarioInput) := by
  have h := claim_c9 ⟨none, none, none, none, none, none, none, none, none, none, none⟩
    mysqlScenarioInput true (by decide)
  exact ⟨h.1, h.2.2.2.2.2.2.1, h.2.2.2.2.2.2.2⟩
